import Mathlib

/-!
# Verification of the dashboard script (`app/static/js/dashboard.js`)

A shallow embedding of the client-side dashboard script and proofs about it.
The script consists of a floating chat widget (send a message, render the
response through a small markdown-like formatter), a tooltip controller, and a
toast-notification helper.  Strings are modelled as Lean `String`s (lists of
characters), the DOM containers as lists of node records, and the single HTTP
exchange as an explicit request value plus an outcome datatype.

The four regular-expression substitutions of `adicionarMensagemChat` are
embedded as character-list scanners that follow the semantics of the JavaScript
regexes used in the source:

* `/``` + `(\w*)\n?([\s\S]*?)``` + `/g  → "<pre>$2</pre>"`   (fenced block)
* `/\*\*(.*?)\*\*/g → "<strong>$1</strong>"`                  (bold)
* a single-backquote pair with a lazy dot group → `"<code>$1</code>"`
* `/\n/g → "<br>"`

`.` in the bold and inline-code regexes does not match a newline; `[\s\S]`
matches every character; `\w*` is greedy; the body groups are lazy; `g` means
repeated non-overlapping leftmost matches.  The scanners below implement
exactly that: at each position try a match, on success emit the replacement
and continue after the match, on failure copy one character and retry at the
next position.  The scanners carry a fuel argument (initialised with the
length of the input) only to make the recursion structural; every step
consumes at least one character, so the fuel never runs out.
-/

/-- The backquote character (code point 96), the fence delimiter. -/
def bq : Char := Char.ofNat 96

/-- JavaScript `\w`: ASCII letters, digits and underscore. -/
def isWordChar (c : Char) : Bool :=
  (Char.ofNat 97 ≤ c && c ≤ Char.ofNat 122) ||
  (Char.ofNat 65 ≤ c && c ≤ Char.ofNat 90) ||
  (Char.ofNat 48 ≤ c && c ≤ Char.ofNat 57) ||
  c = Char.ofNat 95

/-- Lazy search for the closing fence: the shortest prefix followed by three
backquotes.  Returns the prefix (the captured body) and the characters after
the closing fence. -/
def findTriple : List Char → Option (List Char × List Char)
  | [] => none
  | c :: rest =>
    if (c :: rest).take 3 = [bq, bq, bq] then some ([], rest.drop 2)
    else (findTriple rest).map (fun p => (c :: p.1, p.2))

/-- Lazy search for the closing `**`: the shortest newline-free prefix followed
by two asterisks.  `.` in the JavaScript regex does not match `\n`, so a
newline aborts the search. -/
def findBoldEnd : List Char → Option (List Char × List Char)
  | [] => none
  | c :: rest =>
    if (c :: rest).take 2 = ['*', '*'] then some ([], rest.drop 1)
    else if c = '\n' then none
    else (findBoldEnd rest).map (fun p => (c :: p.1, p.2))

/-- Lazy search for the closing backquote: the shortest newline-free prefix
followed by one backquote. -/
def findCodeEnd : List Char → Option (List Char × List Char)
  | [] => none
  | c :: rest =>
    if c = bq then some ([], rest)
    else if c = '\n' then none
    else (findCodeEnd rest).map (fun p => (c :: p.1, p.2))

def preOpen : List Char := "<pre>".data
def preClose : List Char := "</pre>".data
def strongOpen : List Char := "<strong>".data
def strongClose : List Char := "</strong>".data
def codeOpen : List Char := "<code>".data
def codeClose : List Char := "</code>".data
def brTag : List Char := "<br>".data

/-- After an opening fence: skip the greedy word-character language tag
(captured by the regex but discarded by the replacement) and one optional
newline; the lazy body search starts here. -/
def fenceBody (l : List Char) : List Char :=
  if ((l.drop 3).dropWhile isWordChar).take 1 = ['\n'] then
    ((l.drop 3).dropWhile isWordChar).drop 1
  else (l.drop 3).dropWhile isWordChar

/-- One attempted match of the fenced-block regex at the current position:
three backquotes, then the language tag and optional newline, the lazy body
up to the closing three backquotes.  Returns the replacement text and the
remainder. -/
def tryPre (l : List Char) : Option (List Char × List Char) :=
  if l.take 3 = [bq, bq, bq] then
    match findTriple (fenceBody l) with
    | some (body, r) => some (preOpen ++ body ++ preClose, r)
    | none => none
  else none

/-- Global replacement pass for the fenced-block regex. -/
def preGo : Nat → List Char → List Char
  | _, [] => []
  | 0, l => l
  | fuel + 1, c :: rest =>
    match tryPre (c :: rest) with
    | some (out, r) => out ++ preGo fuel r
    | none => c :: preGo fuel rest

def preReplace (l : List Char) : List Char := preGo l.length l

/-- Global replacement pass for the bold regex. -/
def boldGo : Nat → List Char → List Char
  | _, [] => []
  | 0, l => l
  | fuel + 1, c :: rest =>
    if (c :: rest).take 2 = ['*', '*'] then
      match findBoldEnd (rest.drop 1) with
      | some (g, r) => strongOpen ++ g ++ strongClose ++ boldGo fuel r
      | none => c :: boldGo fuel rest
    else c :: boldGo fuel rest

def boldReplace (l : List Char) : List Char := boldGo l.length l

/-- Global replacement pass for the inline-code regex. -/
def codeGo : Nat → List Char → List Char
  | _, [] => []
  | 0, l => l
  | fuel + 1, c :: rest =>
    if c = bq then
      match findCodeEnd rest with
      | some (g, r) => codeOpen ++ g ++ codeClose ++ codeGo fuel r
      | none => c :: codeGo fuel rest
    else c :: codeGo fuel rest

def codeReplace (l : List Char) : List Char := codeGo l.length l

/-- Global replacement pass for `/\n/g → "<br>"`. -/
def nlReplace : List Char → List Char
  | [] => []
  | c :: rest => if c = '\n' then brTag ++ nlReplace rest else c :: nlReplace rest

/-- The markdown-lite formatting chain applied by `adicionarMensagemChat`
(lines 107–111 of the source): fenced blocks, then bold, then inline code,
then newlines, each pass over the output of the previous one. -/
def formatarConteudo (conteudo : String) : String :=
  ⟨nlReplace (codeReplace (boldReplace (preReplace conteudo.data)))⟩

/-!
## JSON values

The request body built by `JSON.stringify` and the parsed value produced by
`response.json()` are modelled as a small JSON datatype.  Objects carry their
fields in declaration order; JavaScript property access on a missing key gives
`undefined`, modelled as `none`.
-/

mutual
inductive Json where
  | null : Json
  | bool (b : Bool) : Json
  | num (n : Int) : Json
  | str (s : String) : Json
  | obj (fields : JsonFields) : Json
  deriving DecidableEq
inductive JsonFields where
  | nil : JsonFields
  | cons (key : String) (value : Json) (rest : JsonFields) : JsonFields
  deriving DecidableEq
end

/-- First field with the given key, if any (object keys are unique). -/
def JsonFields.lookup : JsonFields → String → Option Json
  | .nil, _ => none
  | .cons k v rest, key => if k = key then some v else rest.lookup key

/-- JavaScript property access `data.key`: a field of an object, `undefined`
(`none`) otherwise.  (Access on the primitive `null` would throw in
JavaScript; the claims only exercise object-shaped data.) -/
def Json.get : Json → String → Option Json
  | .obj fs, k => fs.lookup k
  | _, _ => none

/-- JavaScript truthiness of a possibly-undefined value, as used by
`if (data.sucesso)`. -/
def truthy : Option Json → Bool
  | none => false
  | some .null => false
  | some (.bool b) => b
  | some (.num n) => !(n == 0)
  | some (.str s) => !(s == "")
  | some (.obj _) => true

/-- JavaScript string coercion of a possibly-undefined value, as happens when
the value is concatenated to a string or handed to `.replace`. -/
def jsToString : Option Json → String
  | none => "undefined"
  | some .null => "null"
  | some (.bool true) => "true"
  | some (.bool false) => "false"
  | some (.num n) => toString n
  | some (.str s) => s
  | some (.obj _) => "[object Object]"

/-!
## Chat transcript and `enviarMensagem`
-/

/-- A child of the `chatMessages` container: a `div` with its class attribute
and its rendered HTML content, exactly the two things
`adicionarMensagemChat` writes. -/
structure MessageDiv where
  className : String
  innerHTML : String
  deriving DecidableEq

/-- Model of `adicionarMensagemChat(role, conteudo)` (source lines 99–120): builds a
`div` with class `"message " + role`, sets its inner HTML to the formatted
content wrapped in a paragraph, and appends it to the container. -/
def adicionarMensagemChat (container : List MessageDiv) (role conteudo : String) :
    List MessageDiv :=
  container ++ [⟨"message " ++ role, "<p>" ++ formatarConteudo conteudo ++ "</p>"⟩]

/-- The single `div` appended for one `adicionarMensagemChat` call. -/
def messageDiv (role conteudo : String) : MessageDiv :=
  ⟨"message " ++ role, "<p>" ++ formatarConteudo conteudo ++ "</p>"⟩

/-- Model of `input.value.trim()`: JavaScript whitespace trim at both ends. -/
def jsTrim (s : String) : String :=
  ⟨((s.data.dropWhile Char.isWhitespace).reverse.dropWhile Char.isWhitespace).reverse⟩

/-- The transient placeholder content appended before the request is sent. -/
def typingIndicator : String := "<em class=\"typing\">Pensando...</em>"

/-- The `div` holding the thinking placeholder. -/
def typingDiv : MessageDiv := messageDiv "assistant" typingIndicator

/-- The mutable pieces of page state that `enviarMensagem` touches. -/
structure ChatState where
  inputValue : String
  chatMessages : List MessageDiv
  deriving DecidableEq

/-- The one HTTP request `enviarMensagem` issues via `fetch`. -/
structure ChatRequest where
  url : String
  method : String
  contentType : String
  body : Json
  deriving DecidableEq

/-- Model of `enviarMensagem()` (source lines 46–69, up to the `fetch` call): trim the
input; if empty return without touching anything; otherwise append the user
message, clear the input, append the thinking placeholder, and issue one
`POST /ai/chat` whose JSON body is `{"mensagem": <trimmed text>}`. -/
def enviarMensagem (st : ChatState) : ChatState × Option ChatRequest :=
  let mensagem := jsTrim st.inputValue
  if mensagem = "" then (st, none)
  else
    let msgs := adicionarMensagemChat st.chatMessages "user" mensagem
    let msgs := adicionarMensagemChat msgs "assistant" typingIndicator
    (⟨"", msgs⟩,
      some ⟨"/ai/chat", "POST", "application/json",
        Json.obj (.cons "mensagem" (.str mensagem) .nil)⟩)

/-- The fulfilled-response handler (source lines 71–83): remove the last child
of the container (the positional placeholder assumption), then branch on the
truthiness of `data.sucesso`: append the assistant reply `data.resposta`, or
an error line `'❌ ' + data.erro`. -/
def handleChatData (mensagens : List MessageDiv) (data : Json) : List MessageDiv :=
  let m := mensagens.dropLast
  if truthy (data.get "sucesso") then
    adicionarMensagemChat m "assistant" (jsToString (data.get "resposta"))
  else
    adicionarMensagemChat m "assistant" ("❌ " ++ jsToString (data.get "erro"))

/-- The fixed user-facing connection-error text of the `catch` handler. -/
def connectionErrorText : String := "❌ Erro de conexão com o servidor."

/-- The rejection handler (source lines 84–90): remove the last child and
append the fixed connection-error line.  It does not look at the error
value at all; the error goes to `console.error` only. -/
def handleChatError (mensagens : List MessageDiv) : List MessageDiv :=
  adicionarMensagemChat mensagens.dropLast "assistant" connectionErrorText

/-- How the one network exchange can come back: a parsed JSON value, or a
transport-level failure (the `fetch` promise or `response.json()` rejected). -/
inductive FetchOutcome where
  | json (data : Json) : FetchOutcome
  | transportError (error : String) : FetchOutcome

/-- Resolution of the promise chain against the message container and the
diagnostic console log. -/
def resolveFetch (mensagens : List MessageDiv) (log : List String) :
    FetchOutcome → List MessageDiv × List String
  | .json data => (handleChatData mensagens data, log)
  | .transportError error =>
      (handleChatError mensagens, log ++ ["Erro no chat: " ++ error])

/-- The three response categories named by the specification: success,
server-reported failure, transport failure. -/
inductive ChatOutcome where
  | success (resposta : String) : ChatOutcome
  | serverFailure (erro : String) : ChatOutcome
  | transport (error : String) : ChatOutcome

/-- The wire-level outcome for each category, with the field names the server
actually uses. -/
def ChatOutcome.toFetch : ChatOutcome → FetchOutcome
  | .success resposta =>
      .json (.obj (.cons "sucesso" (.bool true) (.cons "resposta" (.str resposta) .nil)))
  | .serverFailure erro =>
      .json (.obj (.cons "sucesso" (.bool false) (.cons "erro" (.str erro) .nil)))
  | .transport error => .transportError error

/-- The assistant-entry content each outcome produces. -/
def ChatOutcome.assistantContent : ChatOutcome → String
  | .success resposta => resposta
  | .serverFailure erro => "❌ " ++ erro
  | .transport _ => connectionErrorText

/-!
## Transcript statistics, toast notifications, tooltips
-/

/-- Number of transcript entries carrying the given role class. -/
def countRole (role : String) (msgs : List MessageDiv) : Nat :=
  msgs.countP (fun d => d.className = "message " ++ role)

/-- Number of transcript entries equal to the thinking placeholder. -/
def countTyping (msgs : List MessageDiv) : Nat :=
  msgs.countP (fun d => d = typingDiv)

/-- A toast node: its identity (for the timers that capture it), its class
token list, and its markup. -/
structure ToastNode where
  id : Nat
  classes : List String
  innerHTML : String
  deriving DecidableEq

/-- The page as the toast code sees it: the toast nodes attached to the body,
in document order, plus a supply of fresh node identities. -/
structure ToastPage where
  body : List ToastNode
  nextId : Nat
  deriving DecidableEq

/-- The icon table of `mostrarNotificacao`; unknown kinds fall back to the
empty string (`icones[tipo] || ''`). -/
def icones (tipo : String) : String :=
  if tipo = "success" then "✅"
  else if tipo = "error" then "❌"
  else if tipo = "info" then "ℹ️"
  else ""

/-- Model of `classList.add`: appends the token unless already present. -/
def addClass (classes : List String) (c : String) : List String :=
  if classes.contains c then classes else classes ++ [c]

/-- Model of `classList.remove`: drops the token. -/
def removeClass (classes : List String) (c : String) : List String :=
  classes.filter (fun x => x ≠ c)

/-- Whether a node matches the `.toast-notification` selector. -/
def isToastNode (n : ToastNode) : Bool := n.classes.contains "toast-notification"

/-- Model of `mostrarNotificacao(mensagem, tipo)` (source lines 236–265): remove the
first existing toast if any (`querySelector` + `remove`), then build the new
node with its kind class and icon markup and append it to the body.  The
timers it schedules are separate events of `toastStep`. -/
def mostrarNotificacao (pg : ToastPage) (mensagem : String) (tipo : String) : ToastPage :=
  ⟨(pg.body.eraseP isToastNode) ++
      [⟨pg.nextId, ["toast-notification", "toast-" ++ tipo],
        "<span>" ++ icones tipo ++ "</span> " ++ mensagem⟩],
    pg.nextId + 1⟩

/-- The events of the toast lifecycle: a `mostrarNotificacao` call, the 10 ms
entrance timer (`classList.add('show')`), the 4000 ms fade-out timer
(`classList.remove('show')`), and the nested 300 ms removal timer
(`toast.remove()`, a no-op if the node is already detached).  Timer events
carry the identity of the node their closure captured. -/
inductive ToastEvent where
  | call (mensagem tipo : String) : ToastEvent
  | entrance (id : Nat) : ToastEvent
  | fadeOut (id : Nat) : ToastEvent
  | removal (id : Nat) : ToastEvent

/-- One step of the toast state machine. -/
def toastStep (pg : ToastPage) : ToastEvent → ToastPage
  | .call mensagem tipo => mostrarNotificacao pg mensagem tipo
  | .entrance id =>
      ⟨pg.body.map (fun n =>
        if n.id = id then ⟨n.id, addClass n.classes "show", n.innerHTML⟩ else n),
       pg.nextId⟩
  | .fadeOut id =>
      ⟨pg.body.map (fun n =>
        if n.id = id then ⟨n.id, removeClass n.classes "show", n.innerHTML⟩ else n),
       pg.nextId⟩
  | .removal id => ⟨pg.body.filter (fun n => n.id ≠ id), pg.nextId⟩

/-- Number of toast nodes in the page. -/
def countToasts (pg : ToastPage) : Nat := pg.body.countP isToastNode

/-- Run a sequence of toast events from an empty page. -/
def runToasts (events : List ToastEvent) : ToastPage :=
  events.foldl toastStep ⟨[], 0⟩

/-- A body child as the tooltip code sees it. -/
structure PageNode where
  className : String
  textContent : String
  deriving DecidableEq

/-- Model of `mostrarTooltip` (source lines 170–183): read `dataset.tooltip` from the
hovered element; if falsy (attribute absent, or present but empty) do
nothing; otherwise append one tooltip node to the body. -/
def mostrarTooltip (body : List PageNode) (datasetTooltip : Option String) :
    List PageNode :=
  match datasetTooltip with
  | none => body
  | some texto => if texto = "" then body else body ++ [⟨"tooltip", texto⟩]

/-- Model of `esconderTooltip` (source lines 185–188): remove the first `.tooltip`
node if one exists. -/
def esconderTooltip (body : List PageNode) : List PageNode :=
  body.eraseP (fun n => n.className = "tooltip")

/-- Number of tooltip nodes in the page. -/
def countTooltips (body : List PageNode) : Nat :=
  body.countP (fun n => n.className = "tooltip")

/-!
## Scanner lemmas

Structure of successful lazy searches, fuel irrelevance, and step equations
for the three regex passes.
-/

theorem take_one_eq {α : Type} {l : List α} {x : α} (h : l.take 1 = [x]) :
    l = x :: l.drop 1 := by
  cases l with
  | nil => simp at h
  | cons a t => simp_all [List.take]

theorem take_two_eq {α : Type} {l : List α} {x y : α} (h : l.take 2 = [x, y]) :
    l = x :: y :: l.drop 2 := by
  cases l with
  | nil => simp at h
  | cons a t =>
    cases t with
    | nil => simp [List.take] at h
    | cons b t' => simp_all [List.take]

theorem take_three_eq {α : Type} {l : List α} {x y z : α} (h : l.take 3 = [x, y, z]) :
    l = x :: y :: z :: l.drop 3 := by
  cases l with
  | nil => simp at h
  | cons a t =>
    cases t with
    | nil => simp [List.take] at h
    | cons b t' =>
      cases t' with
      | nil => simp [List.take] at h
      | cons c t'' => simp_all [List.take]

theorem findTriple_structure : ∀ {m g r : List Char},
    findTriple m = some (g, r) → m = g ++ bq :: bq :: bq :: r := by
  intro m
  induction m with
  | nil => intro g r h; simp [findTriple] at h
  | cons c rest ih =>
    intro g r h
    rw [findTriple] at h
    by_cases hc : (c :: rest).take 3 = [bq, bq, bq]
    · rw [if_pos hc] at h
      obtain ⟨rfl, rfl⟩ : ([] : List Char) = g ∧ rest.drop 2 = r := by
        simpa using h
      have := take_three_eq hc
      simpa using this
    · rw [if_neg hc] at h
      cases hf : findTriple rest with
      | none => rw [hf] at h; simp at h
      | some p =>
        rw [hf] at h
        obtain ⟨g', r'⟩ := p
        simp at h
        obtain ⟨rfl, rfl⟩ := h
        have := ih hf
        simp [this]

theorem findBoldEnd_structure : ∀ {m g r : List Char},
    findBoldEnd m = some (g, r) → m = g ++ '*' :: '*' :: r := by
  intro m
  induction m with
  | nil => intro g r h; simp [findBoldEnd] at h
  | cons c rest ih =>
    intro g r h
    rw [findBoldEnd] at h
    by_cases hc : (c :: rest).take 2 = ['*', '*']
    · rw [if_pos hc] at h
      obtain ⟨rfl, rfl⟩ : ([] : List Char) = g ∧ rest.drop 1 = r := by
        simpa using h
      have := take_two_eq hc
      simpa using this
    · rw [if_neg hc] at h
      by_cases hn : c = '\n'
      · rw [if_pos hn] at h; simp at h
      · rw [if_neg hn] at h
        cases hf : findBoldEnd rest with
        | none => rw [hf] at h; simp at h
        | some p =>
          rw [hf] at h
          obtain ⟨g', r'⟩ := p
          simp at h
          obtain ⟨rfl, rfl⟩ := h
          have := ih hf
          simp [this]

theorem findCodeEnd_structure : ∀ {m g r : List Char},
    findCodeEnd m = some (g, r) → m = g ++ bq :: r := by
  intro m
  induction m with
  | nil => intro g r h; simp [findCodeEnd] at h
  | cons c rest ih =>
    intro g r h
    rw [findCodeEnd] at h
    by_cases hc : c = bq
    · rw [if_pos hc] at h
      obtain ⟨rfl, rfl⟩ : ([] : List Char) = g ∧ rest = r := by simpa using h
      simp [hc]
    · rw [if_neg hc] at h
      by_cases hn : c = '\n'
      · rw [if_pos hn] at h; simp at h
      · rw [if_neg hn] at h
        cases hf : findCodeEnd rest with
        | none => rw [hf] at h; simp at h
        | some p =>
          rw [hf] at h
          obtain ⟨g', r'⟩ := p
          simp at h
          obtain ⟨rfl, rfl⟩ := h
          have := ih hf
          simp [this]

theorem fenceBody_length (l : List Char) : (fenceBody l).length ≤ l.length := by
  have h2 : (l.drop 3).length ≤ l.length := by
    simp only [List.length_drop]; omega
  have h1 : ((l.drop 3).dropWhile isWordChar).length ≤ l.length :=
    le_trans ((l.drop 3).dropWhile_sublist isWordChar).length_le h2
  unfold fenceBody
  split
  · exact le_trans (by simp only [List.length_drop]; omega) h1
  · exact h1

theorem tryPre_length {l out r : List Char} (h : tryPre l = some (out, r)) :
    r.length < l.length := by
  unfold tryPre at h
  by_cases h3 : l.take 3 = [bq, bq, bq]
  · rw [if_pos h3] at h
    cases hf : findTriple (fenceBody l) with
    | none => rw [hf] at h; simp at h
    | some p =>
      obtain ⟨body, r'⟩ := p
      rw [hf] at h
      simp at h
      obtain ⟨-, rfl⟩ := h
      have hs := findTriple_structure hf
      have hb : (fenceBody l).length ≤ l.length := fenceBody_length l
      have h3' := take_three_eq h3
      have : l.length = (l.drop 3).length + 3 := by
        conv_lhs => rw [h3']
        simp
      rw [hs] at hb
      simp at hb
      omega
  · rw [if_neg h3] at h; simp at h

theorem preGo_eq : ∀ (fuel : Nat) (l : List Char), l.length ≤ fuel →
    preGo fuel l = preReplace l := by
  intro fuel
  induction fuel using Nat.strong_induction_on with
  | _ fuel IH =>
    intro l hl
    cases l with
    | nil => cases fuel <;> simp [preGo, preReplace]
    | cons c rest =>
      cases fuel with
      | zero => simp at hl
      | succ f =>
        have hrest : rest.length ≤ f := by simp at hl; omega
        have hrep : preReplace (c :: rest) = preGo (rest.length + 1) (c :: rest) := by
          simp [preReplace]
        rw [hrep]
        cases htp : tryPre (c :: rest) with
        | some p =>
          obtain ⟨out, r⟩ := p
          have hr : r.length < rest.length + 1 := by
            have := tryPre_length htp; simpa using this
          simp only [preGo, htp]
          rw [IH f (by omega) r (by omega), IH rest.length (by omega) r (by omega)]
        | none =>
          simp only [preGo, htp]
          rw [IH f (by omega) rest hrest]
          rfl

theorem boldGo_eq : ∀ (fuel : Nat) (l : List Char), l.length ≤ fuel →
    boldGo fuel l = boldReplace l := by
  intro fuel
  induction fuel using Nat.strong_induction_on with
  | _ fuel IH =>
    intro l hl
    cases l with
    | nil => cases fuel <;> simp [boldGo, boldReplace]
    | cons c rest =>
      cases fuel with
      | zero => simp at hl
      | succ f =>
        have hrest : rest.length ≤ f := by simp at hl; omega
        have hrep : boldReplace (c :: rest) = boldGo (rest.length + 1) (c :: rest) := by
          simp [boldReplace]
        rw [hrep]
        by_cases h2 : (c :: rest).take 2 = ['*', '*']
        · cases hfb : findBoldEnd (rest.drop 1) with
          | some p =>
            obtain ⟨g, r⟩ := p
            have hstruct := findBoldEnd_structure hfb
            have hr : r.length ≤ rest.length := by
              have : (rest.drop 1).length = rest.length - 1 := by
                simp [List.length_drop]
              rw [hstruct] at this
              simp at this
              omega
            simp only [boldGo, h2, if_pos, hfb]
            rw [IH f (by omega) r (by omega), IH rest.length (by omega) r (by omega)]
          | none =>
            simp only [boldGo, h2, if_pos, hfb]
            rw [IH f (by omega) rest hrest]
            rfl
        · simp only [boldGo, if_neg h2]
          rw [IH f (by omega) rest hrest]
          rfl

theorem codeGo_eq : ∀ (fuel : Nat) (l : List Char), l.length ≤ fuel →
    codeGo fuel l = codeReplace l := by
  intro fuel
  induction fuel using Nat.strong_induction_on with
  | _ fuel IH =>
    intro l hl
    cases l with
    | nil => cases fuel <;> simp [codeGo, codeReplace]
    | cons c rest =>
      cases fuel with
      | zero => simp at hl
      | succ f =>
        have hrest : rest.length ≤ f := by simp at hl; omega
        have hrep : codeReplace (c :: rest) = codeGo (rest.length + 1) (c :: rest) := by
          simp [codeReplace]
        rw [hrep]
        by_cases hc : c = bq
        · cases hfc : findCodeEnd rest with
          | some p =>
            obtain ⟨g, r⟩ := p
            have hstruct := findCodeEnd_structure hfc
            have hr : r.length ≤ rest.length := by
              rw [hstruct]; simp; omega
            simp only [codeGo, hc, if_pos, hfc]
            rw [IH f (by omega) r (by omega), IH rest.length (by omega) r (by omega)]
          | none =>
            simp only [codeGo, hc, if_pos, hfc]
            rw [IH f (by omega) rest hrest]
            rfl
        · simp only [codeGo, if_neg hc]
          rw [IH f (by omega) rest hrest]
          rfl

/-! Step equations and no-interference lemmas for the replacement passes. -/

theorem boldReplace_cons_ne {c : Char} (l : List Char) (h : c ≠ '*') :
    boldReplace (c :: l) = c :: boldReplace l := by
  have h2 : ¬((c :: l).take 2 = ['*', '*']) := by
    simp only [List.take_succ_cons]
    intro hx
    exact h (by simpa using congrArg (fun t => t.headI) hx)
  show boldGo (l.length + 1) (c :: l) = c :: boldReplace l
  simp only [boldGo, if_neg h2]
  rfl

theorem boldReplace_span {g r : List Char} (l : List Char)
    (h : findBoldEnd l = some (g, r)) :
    boldReplace ('*' :: '*' :: l) =
      strongOpen ++ g ++ strongClose ++ boldReplace r := by
  have hr : r.length ≤ l.length := by
    have := findBoldEnd_structure h
    rw [this]; simp; omega
  show boldGo (l.length + 2) ('*' :: '*' :: l) = _
  have h2 : ('*' :: '*' :: l).take 2 = ['*', '*'] := by simp
  simp only [boldGo, h2, if_pos, List.drop_one, List.tail_cons, h]
  rw [boldGo_eq (l.length + 1) r (by omega)]

theorem boldReplace_append_free : ∀ (p l : List Char), (∀ c ∈ p, c ≠ '*') →
    boldReplace (p ++ l) = p ++ boldReplace l := by
  intro p
  induction p with
  | nil => intro l _; rfl
  | cons c p' ih =>
    intro l h
    have hc : c ≠ '*' := h c (List.mem_cons_self c p')
    have := boldReplace_cons_ne (p' ++ l) hc
    simp only [List.cons_append, this, ih l (fun d hd => h d (List.mem_cons_of_mem c hd))]

theorem boldReplace_free (l : List Char) (h : ∀ c ∈ l, c ≠ '*') :
    boldReplace l = l := by
  have := boldReplace_append_free l [] h
  have h0 : boldReplace ([] : List Char) = [] := rfl
  simpa [h0] using this

theorem codeReplace_cons_ne {c : Char} (l : List Char) (h : c ≠ bq) :
    codeReplace (c :: l) = c :: codeReplace l := by
  show codeGo (l.length + 1) (c :: l) = c :: codeReplace l
  simp only [codeGo, if_neg h]
  rfl

theorem codeReplace_span {g r : List Char} (l : List Char)
    (h : findCodeEnd l = some (g, r)) :
    codeReplace (bq :: l) = codeOpen ++ g ++ codeClose ++ codeReplace r := by
  have hr : r.length ≤ l.length := by
    have := findCodeEnd_structure h
    rw [this]; simp; omega
  show codeGo (l.length + 1) (bq :: l) = _
  simp only [codeGo, h]
  simp [codeGo_eq l.length r hr]

theorem codeReplace_append_free : ∀ (p l : List Char), (∀ c ∈ p, c ≠ bq) →
    codeReplace (p ++ l) = p ++ codeReplace l := by
  intro p
  induction p with
  | nil => intro l _; rfl
  | cons c p' ih =>
    intro l h
    have hc : c ≠ bq := h c (List.mem_cons_self c p')
    have := codeReplace_cons_ne (p' ++ l) hc
    simp only [List.cons_append, this, ih l (fun d hd => h d (List.mem_cons_of_mem c hd))]

theorem codeReplace_free (l : List Char) (h : ∀ c ∈ l, c ≠ bq) :
    codeReplace l = l := by
  have := codeReplace_append_free l [] h
  have h0 : codeReplace ([] : List Char) = [] := rfl
  simpa [h0] using this

theorem tryPre_none_of_ne {c : Char} (l : List Char) (h : c ≠ bq) :
    tryPre (c :: l) = none := by
  unfold tryPre
  rw [if_neg]
  simp only [List.take_succ_cons]
  intro hx
  exact h (by simpa using congrArg (fun t => t.headI) hx)

theorem preReplace_cons_none {c : Char} (l : List Char) (h : tryPre (c :: l) = none) :
    preReplace (c :: l) = c :: preReplace l := by
  show preGo (l.length + 1) (c :: l) = c :: preReplace l
  simp only [preGo, h]
  rfl

theorem preReplace_cons_ne {c : Char} (l : List Char) (h : c ≠ bq) :
    preReplace (c :: l) = c :: preReplace l :=
  preReplace_cons_none l (tryPre_none_of_ne l h)

theorem preReplace_fence {c : Char} {out r : List Char} (l : List Char)
    (h : tryPre (c :: l) = some (out, r)) :
    preReplace (c :: l) = out ++ preReplace r := by
  have hr : r.length < l.length + 1 := by
    have := tryPre_length h; simpa using this
  show preGo (l.length + 1) (c :: l) = _
  simp only [preGo, h]
  rw [preGo_eq l.length r (by omega)]

theorem preReplace_append_free : ∀ (p l : List Char), (∀ c ∈ p, c ≠ bq) →
    preReplace (p ++ l) = p ++ preReplace l := by
  intro p
  induction p with
  | nil => intro l _; rfl
  | cons c p' ih =>
    intro l h
    have hc : c ≠ bq := h c (List.mem_cons_self c p')
    have := preReplace_cons_ne (p' ++ l) hc
    simp only [List.cons_append, this, ih l (fun d hd => h d (List.mem_cons_of_mem c hd))]

theorem preReplace_free (l : List Char) (h : ∀ c ∈ l, c ≠ bq) :
    preReplace l = l := by
  have := preReplace_append_free l [] h
  have h0 : preReplace ([] : List Char) = [] := rfl
  simpa [h0] using this

theorem nlReplace_append : ∀ (a b : List Char),
    nlReplace (a ++ b) = nlReplace a ++ nlReplace b := by
  intro a
  induction a with
  | nil => intro b; rfl
  | cons c a' ih =>
    intro b
    by_cases h : c = '\n' <;>
      simp [nlReplace, h, ih b]

theorem nlReplace_free (l : List Char) (h : ∀ c ∈ l, c ≠ '\n') :
    nlReplace l = l := by
  induction l with
  | nil => rfl
  | cons c l' ih =>
    have hc : c ≠ '\n' := h c (List.mem_cons_self c l')
    simp [nlReplace, hc, ih (fun d hd => h d (List.mem_cons_of_mem c hd))]

/-! Successful lazy searches over delimiter-free bodies. -/

theorem findBoldEnd_free : ∀ (m l : List Char), (∀ c ∈ m, c ≠ '*' ∧ c ≠ '\n') →
    findBoldEnd (m ++ '*' :: '*' :: l) = some (m, l) := by
  intro m
  induction m with
  | nil =>
    intro l _
    show findBoldEnd ('*' :: '*' :: l) = some ([], l)
    rw [findBoldEnd]
    rw [if_pos (by simp)]
    simp
  | cons c m' ih =>
    intro l h
    obtain ⟨hstar, hnl⟩ := h c (List.mem_cons_self c m')
    have h2 : ¬((c :: (m' ++ '*' :: '*' :: l)).take 2 = ['*', '*']) := by
      simp only [List.take_succ_cons]
      intro hx
      exact hstar (by simpa using congrArg (fun t => t.headI) hx)
    show findBoldEnd (c :: (m' ++ '*' :: '*' :: l)) = _
    rw [findBoldEnd, if_neg h2, if_neg hnl,
      ih l (fun d hd => h d (List.mem_cons_of_mem c hd))]
    rfl

theorem findCodeEnd_free : ∀ (m l : List Char), (∀ c ∈ m, c ≠ bq ∧ c ≠ '\n') →
    findCodeEnd (m ++ bq :: l) = some (m, l) := by
  intro m
  induction m with
  | nil =>
    intro l _
    show findCodeEnd (bq :: l) = some ([], l)
    rw [findCodeEnd, if_pos rfl]
  | cons c m' ih =>
    intro l h
    obtain ⟨hb, hnl⟩ := h c (List.mem_cons_self c m')
    show findCodeEnd (c :: (m' ++ bq :: l)) = _
    rw [findCodeEnd, if_neg hb, if_neg hnl,
      ih l (fun d hd => h d (List.mem_cons_of_mem c hd))]
    rfl

theorem findTriple_free : ∀ (m l : List Char), (∀ c ∈ m, c ≠ bq) →
    findTriple (m ++ bq :: bq :: bq :: l) = some (m, l) := by
  intro m
  induction m with
  | nil =>
    intro l _
    show findTriple (bq :: bq :: bq :: l) = some ([], l)
    rw [findTriple, if_pos (by simp)]
    simp
  | cons c m' ih =>
    intro l h
    have hb : c ≠ bq := h c (List.mem_cons_self c m')
    have h3 : ¬((c :: (m' ++ bq :: bq :: bq :: l)).take 3 = [bq, bq, bq]) := by
      simp only [List.take_succ_cons]
      intro hx
      exact hb (by simpa using congrArg (fun t => t.headI) hx)
    show findTriple (c :: (m' ++ bq :: bq :: bq :: l)) = _
    rw [findTriple, if_neg h3, ih l (fun d hd => h d (List.mem_cons_of_mem c hd))]
    rfl

/-- A single-backquote inline span is untouched by the fenced-block pass. -/
theorem preReplace_codeSpan (m : List Char) (h : ∀ c ∈ m, c ≠ bq) :
    preReplace (bq :: (m ++ [bq])) = bq :: (m ++ [bq]) := by
  have hnone : tryPre (bq :: (m ++ [bq])) = none := by
    unfold tryPre
    rw [if_neg]
    cases m with
    | nil => simp [List.take]
    | cons c m' =>
      have hc : c ≠ bq := h c (List.mem_cons_self c m')
      simp only [List.cons_append, List.take_succ_cons]
      intro hx
      apply hc
      have := congrArg (fun t => t.tail.headI) hx
      simpa using this
  rw [preReplace_cons_none _ hnone,
    preReplace_append_free m [bq] h]
  have : preReplace [bq] = [bq] := by
    have hn : tryPre [bq] = none := by
      unfold tryPre
      rw [if_neg]
      simp [List.take]
    rw [preReplace_cons_none [] hn]
    rfl
  rw [this]

/-!
## Renderer claims
-/

/-- A character that none of the markdown-lite rules react to. -/
def plainChar (c : Char) : Bool := !(c = bq || c = '*' || c = '\n')

/-- Text free of backquotes, asterisks and newlines: handled verbatim by every
pass of the renderer. -/
def plainText (s : String) : Bool := s.data.all plainChar

theorem plainText_spec {s : String} (h : plainText s = true) :
    ∀ c ∈ s.data, c ≠ bq ∧ c ≠ '*' ∧ c ≠ '\n' := by
  intro c hc
  have hx := List.all_eq_true.mp h c hc
  simp only [plainChar, Bool.not_eq_true', Bool.or_eq_false_iff,
    decide_eq_false_iff_not] at hx
  exact ⟨hx.1.1, hx.1.2, hx.2⟩

theorem fence_newline_list (a b : List Char)
    (ha : ∀ c ∈ a, c ≠ bq ∧ c ≠ '*' ∧ c ≠ '\n')
    (hb : ∀ c ∈ b, c ≠ bq ∧ c ≠ '*' ∧ c ≠ '\n') :
    nlReplace (codeReplace (boldReplace (preReplace
      (bq :: bq :: bq :: '\n' :: (a ++ '\n' :: (b ++ [bq, bq, bq])))))) =
      preOpen ++ a ++ brTag ++ b ++ preClose := by
  have hw : isWordChar '\n' = false := by decide
  have hshape : a ++ '\n' :: (b ++ [bq, bq, bq]) =
      (a ++ '\n' :: b) ++ bq :: bq :: bq :: [] := by simp
  have hfb : fenceBody (bq :: bq :: bq :: '\n' :: (a ++ '\n' :: (b ++ [bq, bq, bq]))) =
      a ++ '\n' :: (b ++ [bq, bq, bq]) := by
    unfold fenceBody
    simp [List.dropWhile_cons, hw, List.take, List.drop]
  have h1 : tryPre (bq :: bq :: bq :: '\n' :: (a ++ '\n' :: (b ++ [bq, bq, bq]))) =
      some (preOpen ++ (a ++ '\n' :: b) ++ preClose, []) := by
    unfold tryPre
    rw [if_pos (by simp [List.take])]
    rw [hfb, hshape,
      findTriple_free (a ++ '\n' :: b) []
        (by
          intro c hc
          simp only [List.mem_append, List.mem_cons] at hc
          rcases hc with h | h | h
          · exact (ha c h).1
          · subst h; decide
          · exact (hb c h).1)]
  rw [preReplace_fence _ h1]
  have hpre0 : preReplace ([] : List Char) = [] := rfl
  rw [hpre0, List.append_nil]
  have hmid : ∀ c ∈ preOpen ++ (a ++ '\n' :: b) ++ preClose,
      c ≠ bq ∧ c ≠ '*' := by
    intro c hc
    simp only [List.mem_append, List.mem_cons] at hc
    rcases hc with (h | h | h | h) | h
    · exact ⟨(by decide : ∀ x ∈ preOpen, x ≠ bq ∧ x ≠ '*') c h |>.1,
        (by decide : ∀ x ∈ preOpen, x ≠ bq ∧ x ≠ '*') c h |>.2⟩
    · exact ⟨(ha c h).1, (ha c h).2.1⟩
    · subst h; exact ⟨by decide, by decide⟩
    · exact ⟨(hb c h).1, (hb c h).2.1⟩
    · exact ⟨(by decide : ∀ x ∈ preClose, x ≠ bq ∧ x ≠ '*') c h |>.1,
        (by decide : ∀ x ∈ preClose, x ≠ bq ∧ x ≠ '*') c h |>.2⟩
  rw [boldReplace_free _ (fun c hc => (hmid c hc).2)]
  rw [codeReplace_free _ (fun c hc => (hmid c hc).1)]
  rw [nlReplace_append, nlReplace_append]
  rw [nlReplace_free preOpen (by decide)]
  rw [nlReplace_free preClose (by decide)]
  have hnl : nlReplace (a ++ '\n' :: b) = a ++ brTag ++ b := by
    rw [nlReplace_append]
    rw [nlReplace_free a (fun c hc => (ha c hc).2.2)]
    show a ++ (if '\n' = '\n' then brTag ++ nlReplace b else _) = _
    rw [if_pos rfl, nlReplace_free b (fun c hc => (hb c hc).2.2)]
    simp
  rw [hnl]
  simp

/-- C10: for a fenced block whose body spans multiple lines, the newline pass
runs after the fence pass over the whole string, so the newlines inside the
produced preformatted block come out as line-break tags, not as literal
newlines. -/
theorem c10_fence_body_newlines_become_br (a b : String)
    (ha : plainText a = true) (hb : plainText b = true) :
    formatarConteudo ("```" ++ "\n" ++ a ++ "\n" ++ b ++ "```") =
      "<pre>" ++ a ++ "<br>" ++ b ++ "</pre>" := by
  have hfence := fence_newline_list a.data b.data (plainText_spec ha) (plainText_spec hb)
  apply String.ext
  show nlReplace (codeReplace (boldReplace (preReplace
      (("```" ++ "\n" ++ a ++ "\n" ++ b ++ "```" : String)).data))) = _
  have hdat : (("```" ++ "\n" ++ a ++ "\n" ++ b ++ "```" : String)).data
      = bq :: bq :: bq :: '\n' :: (a.data ++ '\n' :: (b.data ++ [bq, bq, bq])) := by
    simp only [String.data_append]
    simp [show ("```" : String).data = [bq, bq, bq] from rfl,
      show ("\n" : String).data = ['\n'] from rfl] <;> decide
  rw [hdat, hfence]
  show preOpen ++ a.data ++ brTag ++ b.data ++ preClose =
    (("<pre>" ++ a ++ "<br>" ++ b ++ "</pre>" : String)).data
  simp [String.data_append, preOpen, brTag, preClose]

/-- Witness for C10 at a concrete two-line code body. -/
theorem c10_witness :
    plainText "linha1" = true ∧ plainText "linha2" = true ∧
    formatarConteudo ("```" ++ "\n" ++ "linha1" ++ "\n" ++ "linha2" ++ "```") =
      "<pre>" ++ "linha1" ++ "<br>" ++ "linha2" ++ "</pre>" :=
  ⟨by decide, by decide,
    c10_fence_body_newlines_become_br "linha1" "linha2" (by decide) (by decide)⟩

theorem forall_mem_append2 {α : Type} {P : α → Prop} {x y : List α}
    (hx : ∀ c ∈ x, P c) (hy : ∀ c ∈ y, P c) : ∀ c ∈ x ++ y, P c := by
  intro c hc
  rcases List.mem_append.mp hc with h | h
  · exact hx c h
  · exact hy c h

theorem bold_span_list (a : List Char) (ha : ∀ c ∈ a, c ≠ bq ∧ c ≠ '*' ∧ c ≠ '\n') :
    nlReplace (codeReplace (boldReplace (preReplace ('*' :: '*' :: (a ++ ['*', '*']))))) =
      strongOpen ++ a ++ strongClose := by
  rw [preReplace_free _ (by
    refine List.forall_mem_cons.mpr ⟨by decide, List.forall_mem_cons.mpr ⟨by decide, ?_⟩⟩
    exact forall_mem_append2 (fun c hc => (ha c hc).1) (by decide))]
  have hfb : findBoldEnd (a ++ '*' :: '*' :: []) = some (a, []) :=
    findBoldEnd_free a [] (fun c hc => ⟨(ha c hc).2.1, (ha c hc).2.2⟩)
  have hshape : a ++ ['*', '*'] = a ++ '*' :: '*' :: [] := rfl
  rw [hshape, boldReplace_span _ hfb]
  have hb0 : boldReplace ([] : List Char) = [] := rfl
  rw [hb0, List.append_nil]
  rw [codeReplace_free _ (by
    refine forall_mem_append2 (forall_mem_append2 (by decide) ?_) (by decide)
    exact fun c hc => (ha c hc).1)]
  rw [nlReplace_free _ (by
    refine forall_mem_append2 (forall_mem_append2 (by decide) ?_) (by decide)
    exact fun c hc => (ha c hc).2.2)]

theorem code_span_list (a : List Char) (ha : ∀ c ∈ a, c ≠ bq ∧ c ≠ '*' ∧ c ≠ '\n') :
    nlReplace (codeReplace (boldReplace (preReplace (bq :: (a ++ [bq]))))) =
      codeOpen ++ a ++ codeClose := by
  rw [preReplace_codeSpan a (fun c hc => (ha c hc).1)]
  rw [boldReplace_free _ (by
    refine List.forall_mem_cons.mpr ⟨by decide, ?_⟩
    exact forall_mem_append2 (fun c hc => (ha c hc).2.1) (by decide))]
  have hfc : findCodeEnd (a ++ bq :: []) = some (a, []) :=
    findCodeEnd_free a [] (fun c hc => ⟨(ha c hc).1, (ha c hc).2.2⟩)
  have hshape : a ++ [bq] = a ++ bq :: [] := rfl
  rw [hshape, codeReplace_span _ hfc]
  have hc0 : codeReplace ([] : List Char) = [] := rfl
  rw [hc0, List.append_nil]
  rw [nlReplace_free _ (by
    refine forall_mem_append2 (forall_mem_append2 (by decide) ?_) (by decide)
    exact fun c hc => (ha c hc).2.2)]

theorem newline_span_list (a b : List Char)
    (ha : ∀ c ∈ a, c ≠ bq ∧ c ≠ '*' ∧ c ≠ '\n')
    (hb : ∀ c ∈ b, c ≠ bq ∧ c ≠ '*' ∧ c ≠ '\n') :
    nlReplace (codeReplace (boldReplace (preReplace (a ++ '\n' :: b)))) =
      a ++ brTag ++ b := by
  have hmem : ∀ c ∈ a ++ '\n' :: b, c ≠ bq ∧ c ≠ '*' ∧ c ≠ '\n' ∨ c = '\n' := by
    refine forall_mem_append2 (fun c hc => Or.inl (ha c hc)) ?_
    refine List.forall_mem_cons.mpr ⟨Or.inr rfl, fun c hc => Or.inl (hb c hc)⟩
  rw [preReplace_free _ (fun c hc => by
    rcases hmem c hc with h | h
    · exact h.1
    · subst h; decide)]
  rw [boldReplace_free _ (fun c hc => by
    rcases hmem c hc with h | h
    · exact h.2.1
    · subst h; decide)]
  rw [codeReplace_free _ (fun c hc => by
    rcases hmem c hc with h | h
    · exact h.1
    · subst h; decide)]
  rw [nlReplace_append]
  rw [nlReplace_free a (fun c hc => (ha c hc).2.2)]
  show a ++ (if '\n' = '\n' then brTag ++ nlReplace b else _) = _
  rw [if_pos rfl, nlReplace_free b (fun c hc => (hb c hc).2.2)]
  simp

theorem compose_span_list (a b : List Char)
    (ha : ∀ c ∈ a, c ≠ bq ∧ c ≠ '*' ∧ c ≠ '\n')
    (hb : ∀ c ∈ b, c ≠ bq ∧ c ≠ '*' ∧ c ≠ '\n') :
    nlReplace (codeReplace (boldReplace (preReplace
      ('*' :: '*' :: (a ++ '*' :: '*' :: '\n' :: (bq :: (b ++ [bq]))))))) =
      strongOpen ++ a ++ strongClose ++ brTag ++ codeOpen ++ b ++ codeClose := by
  have hshape1 : '*' :: '*' :: (a ++ '*' :: '*' :: '\n' :: (bq :: (b ++ [bq]))) =
      ('*' :: '*' :: (a ++ ['*', '*', '\n'])) ++ (bq :: (b ++ [bq])) := by simp
  rw [hshape1,
    preReplace_append_free _ _ (by
      refine List.forall_mem_cons.mpr ⟨by decide, List.forall_mem_cons.mpr ⟨by decide, ?_⟩⟩
      exact forall_mem_append2 (fun c hc => (ha c hc).1) (by decide)),
    preReplace_codeSpan b (fun c hc => (hb c hc).1)]
  have hshape2 : ('*' :: '*' :: (a ++ ['*', '*', '\n'])) ++ (bq :: (b ++ [bq])) =
      '*' :: '*' :: (a ++ '*' :: '*' :: ('\n' :: (bq :: (b ++ [bq])))) := by simp
  rw [hshape2]
  have hfb : findBoldEnd (a ++ '*' :: '*' :: ('\n' :: (bq :: (b ++ [bq])))) =
      some (a, '\n' :: (bq :: (b ++ [bq]))) :=
    findBoldEnd_free a _ (fun c hc => ⟨(ha c hc).2.1, (ha c hc).2.2⟩)
  rw [boldReplace_span _ hfb]
  rw [boldReplace_free ('\n' :: (bq :: (b ++ [bq]))) (by
    refine List.forall_mem_cons.mpr ⟨by decide, List.forall_mem_cons.mpr ⟨by decide, ?_⟩⟩
    exact forall_mem_append2 (fun c hc => (hb c hc).2.1) (by decide))]
  have hshape3 : strongOpen ++ a ++ strongClose ++ ('\n' :: (bq :: (b ++ [bq]))) =
      (strongOpen ++ a ++ strongClose ++ ['\n']) ++ (bq :: (b ++ [bq])) := by simp
  rw [hshape3,
    codeReplace_append_free _ _ (by
      refine forall_mem_append2 (forall_mem_append2 (forall_mem_append2 (by decide) ?_)
        (by decide)) (by decide)
      exact fun c hc => (ha c hc).1)]
  have hfc : findCodeEnd (b ++ bq :: []) = some (b, []) :=
    findCodeEnd_free b [] (fun c hc => ⟨(hb c hc).1, (hb c hc).2.2⟩)
  have hshape4 : b ++ [bq] = b ++ bq :: [] := rfl
  rw [hshape4, codeReplace_span _ hfc]
  have hc0 : codeReplace ([] : List Char) = [] := rfl
  rw [hc0, List.append_nil]
  simp only [nlReplace_append]
  rw [nlReplace_free strongOpen (by decide), nlReplace_free strongClose (by decide),
    nlReplace_free codeOpen (by decide), nlReplace_free codeClose (by decide),
    nlReplace_free a (fun c hc => (ha c hc).2.2),
    nlReplace_free b (fun c hc => (hb c hc).2.2)]
  have hnl1 : nlReplace ['\n'] = brTag := by simp [nlReplace]
  rw [hnl1]
  simp

/-- C4 counterexample: rendering the single-line fence does not keep the word
as the block body; the greedy language-tag group consumes it. -/
theorem c4_counterexample :
    formatarConteudo "```code```" = "<pre></pre>" ∧
    formatarConteudo "```code```" ≠ "<pre>code</pre>" := by
  constructor
  · decide
  · decide

/-- C4 (amended): in a single-line fence the leading word is consumed as the
(ignored) language tag, leaving an empty preformatted block; the body survives
only when separated from the opening fence by a newline. -/
theorem c4_fence_language_tag :
    formatarConteudo "```code```" = "<pre></pre>" ∧
    formatarConteudo "```\ncode```" = "<pre>code</pre>" ∧
    formatarConteudo "```js\ncode```" = "<pre>code</pre>" := by
  refine ⟨by decide, by decide, by decide⟩

/-- C5 counterexample: a double-asterisk span whose body contains a newline is
not converted to strong emphasis, because the dot of the bold regex does not
match newlines; only the newline substitution applies. -/
theorem c5_counterexample :
    formatarConteudo "**a\nb**" = "**a<br>b**" ∧
    formatarConteudo "**a\nb**" ≠ "<strong>a<br>b</strong>" := by
  constructor
  · decide
  · decide

/-- C5 (amended): on newline-free span bodies the three inline rules behave as
the specification says, in order and composably: bold spans become strong
tags, backquote spans become code tags, newlines become break tags, and later
rules act on the output of earlier ones. -/
theorem c5_markdown_rules_compose (a b : String)
    (ha : plainText a = true) (hb : plainText b = true) :
    formatarConteudo ("**" ++ a ++ "**") = "<strong>" ++ a ++ "</strong>" ∧
    formatarConteudo ("`" ++ a ++ "`") = "<code>" ++ a ++ "</code>" ∧
    formatarConteudo (a ++ "\n" ++ b) = a ++ "<br>" ++ b ∧
    formatarConteudo ("**" ++ a ++ "**" ++ "\n" ++ "`" ++ b ++ "`") =
      "<strong>" ++ a ++ "</strong>" ++ "<br>" ++ "<code>" ++ b ++ "</code>" := by
  have haS := plainText_spec ha
  have hbS := plainText_spec hb
  refine ⟨?_, ?_, ?_, ?_⟩
  · apply String.ext
    have hdat : (("**" ++ a ++ "**" : String)).data =
        '*' :: '*' :: (a.data ++ ['*', '*']) := by
      simp [String.data_append, show ("**" : String).data = ['*', '*'] from rfl]
    show nlReplace (codeReplace (boldReplace (preReplace
      (("**" ++ a ++ "**" : String)).data))) = _
    rw [hdat, bold_span_list a.data haS]
    simp [String.data_append, strongOpen, strongClose]
  · apply String.ext
    have hdat : (("`" ++ a ++ "`" : String)).data = bq :: (a.data ++ [bq]) := by
      simp [String.data_append, show ("`" : String).data = [bq] from rfl]
      decide
    show nlReplace (codeReplace (boldReplace (preReplace
      (("`" ++ a ++ "`" : String)).data))) = _
    rw [hdat, code_span_list a.data haS]
    simp [String.data_append, codeOpen, codeClose]
  · apply String.ext
    have hdat : ((a ++ "\n" ++ b : String)).data = a.data ++ '\n' :: b.data := by
      simp [String.data_append, show ("\n" : String).data = ['\n'] from rfl]
    show nlReplace (codeReplace (boldReplace (preReplace
      ((a ++ "\n" ++ b : String)).data))) = _
    rw [hdat, newline_span_list a.data b.data haS hbS]
    simp [String.data_append, brTag]
  · apply String.ext
    have hdat : (("**" ++ a ++ "**" ++ "\n" ++ "`" ++ b ++ "`" : String)).data =
        '*' :: '*' :: (a.data ++ '*' :: '*' :: '\n' :: (bq :: (b.data ++ [bq]))) := by
      simp [String.data_append, show ("**" : String).data = ['*', '*'] from rfl,
        show ("\n" : String).data = ['\n'] from rfl,
        show ("`" : String).data = [bq] from rfl]
      decide
    show nlReplace (codeReplace (boldReplace (preReplace
      (("**" ++ a ++ "**" ++ "\n" ++ "`" ++ b ++ "`" : String)).data))) = _
    rw [hdat, compose_span_list a.data b.data haS hbS]
    simp [String.data_append, strongOpen, strongClose, brTag, codeOpen, codeClose]

/-- Witness for C5 at concrete plain span bodies. -/
theorem c5_witness :
    plainText "negrito" = true ∧ plainText "codigo" = true ∧
    (formatarConteudo ("**" ++ "negrito" ++ "**") = "<strong>" ++ "negrito" ++ "</strong>" ∧
     formatarConteudo ("`" ++ "negrito" ++ "`") = "<code>" ++ "negrito" ++ "</code>" ∧
     formatarConteudo ("negrito" ++ "\n" ++ "codigo") = "negrito" ++ "<br>" ++ "codigo" ∧
     formatarConteudo ("**" ++ "negrito" ++ "**" ++ "\n" ++ "`" ++ "codigo" ++ "`") =
       "<strong>" ++ "negrito" ++ "</strong>" ++ "<br>" ++ "<code>" ++ "codigo" ++ "</code>") :=
  ⟨by decide, by decide,
    c5_markdown_rules_compose "negrito" "codigo" (by decide) (by decide)⟩

/-!
## Chat claims
-/

theorem messageDiv_user_ne_typing (t : String) : messageDiv "user" t ≠ typingDiv := by
  intro h
  have hcl := congrArg MessageDiv.className h
  simp [messageDiv, typingDiv] at hcl

/-- Resolution of any of the three outcome categories: drop the last entry,
append the assistant entry for that outcome. -/
theorem resolveFetch_outcome (msgs : List MessageDiv) (log : List String)
    (outcome : ChatOutcome) :
    (resolveFetch msgs log outcome.toFetch).1 =
      msgs.dropLast ++ [messageDiv "assistant" outcome.assistantContent] := by
  cases outcome with
  | success resposta =>
    simp [ChatOutcome.toFetch, ChatOutcome.assistantContent, resolveFetch,
      handleChatData, Json.get, JsonFields.lookup, truthy, jsToString,
      adicionarMensagemChat, messageDiv]
  | serverFailure erro =>
    simp [ChatOutcome.toFetch, ChatOutcome.assistantContent, resolveFetch,
      handleChatData, Json.get, JsonFields.lookup, truthy, jsToString,
      adicionarMensagemChat, messageDiv]
  | transport error =>
    simp [ChatOutcome.toFetch, ChatOutcome.assistantContent, resolveFetch,
      handleChatError, adicionarMensagemChat, messageDiv, connectionErrorText]

/-- C6: for input that is empty after trimming, `enviarMensagem` changes
nothing: same transcript, same input field, and no request is issued. -/
theorem c6_empty_input_noop (st : ChatState) (h : jsTrim st.inputValue = "") :
    enviarMensagem st = (st, none) := by
  simp [enviarMensagem, h]

/-- Witness for C6 on whitespace-only input. -/
theorem c6_witness :
    jsTrim " \n  " = "" ∧
    enviarMensagem ⟨" \n  ", [typingDiv]⟩ = (⟨" \n  ", [typingDiv]⟩, none) :=
  ⟨by decide, c6_empty_input_noop ⟨" \n  ", [typingDiv]⟩ (by decide)⟩

/-- C2 counterexample: the request body key is `mensagem`, not `message`, so
the claimed body shape is not what a send produces. -/
theorem c2_counterexample :
    (enviarMensagem ⟨"ola", []⟩).2 = some ⟨"/ai/chat", "POST", "application/json",
      Json.obj (.cons "mensagem" (.str "ola") .nil)⟩ ∧
    (enviarMensagem ⟨"ola", []⟩).2 ≠ some ⟨"/ai/chat", "POST", "application/json",
      Json.obj (.cons "message" (.str "ola") .nil)⟩ := by
  constructor
  · decide
  · decide

/-- C2 (amended): for non-empty trimmed input, exactly one request is issued:
a POST to `/ai/chat` with content type `application/json` and JSON body
`{"mensagem": <trimmed text>}`. -/
theorem c2_request_shape (st : ChatState) (h : jsTrim st.inputValue ≠ "") :
    (enviarMensagem st).2 = some ⟨"/ai/chat", "POST", "application/json",
      Json.obj (.cons "mensagem" (.str (jsTrim st.inputValue)) .nil)⟩ := by
  simp [enviarMensagem, h]

/-- Witness for C2 at a concrete input. -/
theorem c2_witness :
    jsTrim "ola" ≠ "" ∧
    (enviarMensagem ⟨"ola", []⟩).2 = some ⟨"/ai/chat", "POST", "application/json",
      Json.obj (.cons "mensagem" (.str (jsTrim "ola")) .nil)⟩ :=
  ⟨by decide, c2_request_shape ⟨"ola", []⟩ (by decide)⟩

/-- C3 counterexample: a response in the claimed shape, with English field
names, is not recognised: `data.sucesso` is undefined hence falsy, and the
handler appends the error line for the undefined `erro` field instead of the
reply. -/
theorem c3_counterexample :
    handleChatData [typingDiv]
      (Json.obj (.cons "success" (.bool true) (.cons "response" (.str "oi") .nil))) =
      [messageDiv "assistant" ("❌ " ++ "undefined")] ∧
    handleChatData [typingDiv]
      (Json.obj (.cons "success" (.bool true) (.cons "response" (.str "oi") .nil))) ≠
      [messageDiv "assistant" "oi"] := by
  constructor
  · decide
  · decide

/-- C3 (amended): for a well-formed response object the handler first drops
the last transcript entry (the positional placeholder), then appends the
rendered `resposta` when `sucesso` is true, and the glyph-prefixed `erro`
when `sucesso` is false — the field names are the Portuguese ones the server
uses. -/
theorem c3_response_dispatch (msgs : List MessageDiv) (resposta erro : String) :
    handleChatData msgs (Json.obj (.cons "sucesso" (.bool true)
        (.cons "resposta" (.str resposta) .nil))) =
      msgs.dropLast ++ [messageDiv "assistant" resposta] ∧
    handleChatData msgs (Json.obj (.cons "sucesso" (.bool false)
        (.cons "erro" (.str erro) .nil))) =
      msgs.dropLast ++ [messageDiv "assistant" ("❌ " ++ erro)] := by
  constructor
  · simp [handleChatData, Json.get, JsonFields.lookup, truthy, jsToString,
      adicionarMensagemChat, messageDiv]
  · simp [handleChatData, Json.get, JsonFields.lookup, truthy, jsToString,
      adicionarMensagemChat, messageDiv]

/-- C7: on a transport-level failure the handler drops the last transcript
entry, appends the one fixed connection-error line — the same line whatever
the underlying error was — and the error itself goes only to the console
log. -/
theorem c7_transport_failure (mensagens : List MessageDiv) (log : List String)
    (error : String) :
    resolveFetch mensagens log (.transportError error) =
      (mensagens.dropLast ++ [messageDiv "assistant" connectionErrorText],
        log ++ ["Erro no chat: " ++ error]) ∧
    (∀ e1 e2 : String,
      (resolveFetch mensagens log (.transportError e1)).1 =
        (resolveFetch mensagens log (.transportError e2)).1) := by
  constructor
  · simp [resolveFetch, handleChatError, adicionarMensagemChat, messageDiv]
  · intro e1 e2; rfl

/-- C1: a single send with no other request in flight appends one user entry
built from the trimmed input and one placeholder; when the one response
resolves — success, server-reported failure, or transport failure — the
transcript is the original plus exactly one user entry and one assistant
entry, with no thinking placeholder left.  (The placeholder count conjunct
assumes the transcript was placeholder-free and the outcome content is not
itself the placeholder markup.) -/
theorem c1_send_lifecycle (st : ChatState) (log : List String) (outcome : ChatOutcome)
    (h : jsTrim st.inputValue ≠ "")
    (hclean : countTyping st.chatMessages = 0)
    (hfresh : messageDiv "assistant" outcome.assistantContent ≠ typingDiv) :
    (enviarMensagem st).1.chatMessages =
      st.chatMessages ++ [messageDiv "user" (jsTrim st.inputValue), typingDiv] ∧
    (resolveFetch (enviarMensagem st).1.chatMessages log outcome.toFetch).1 =
      st.chatMessages ++ [messageDiv "user" (jsTrim st.inputValue),
        messageDiv "assistant" outcome.assistantContent] ∧
    countRole "user" (resolveFetch (enviarMensagem st).1.chatMessages log outcome.toFetch).1 =
      countRole "user" st.chatMessages + 1 ∧
    countRole "assistant"
        (resolveFetch (enviarMensagem st).1.chatMessages log outcome.toFetch).1 =
      countRole "assistant" st.chatMessages + 1 ∧
    countTyping (resolveFetch (enviarMensagem st).1.chatMessages log outcome.toFetch).1 = 0 := by
  have hsent : (enviarMensagem st).1.chatMessages =
      st.chatMessages ++ [messageDiv "user" (jsTrim st.inputValue), typingDiv] := by
    simp [enviarMensagem, h, adicionarMensagemChat, messageDiv, typingDiv]
  have hfinal : (resolveFetch (enviarMensagem st).1.chatMessages log outcome.toFetch).1 =
      st.chatMessages ++ [messageDiv "user" (jsTrim st.inputValue),
        messageDiv "assistant" outcome.assistantContent] := by
    rw [hsent, resolveFetch_outcome]
    have hshape : st.chatMessages ++ [messageDiv "user" (jsTrim st.inputValue), typingDiv] =
        (st.chatMessages ++ [messageDiv "user" (jsTrim st.inputValue)]) ++ [typingDiv] := by
      simp
    rw [hshape, List.dropLast_concat]
    simp
  refine ⟨hsent, hfinal, ?_, ?_, ?_⟩
  · rw [hfinal]
    simp [countRole, List.countP_append, List.countP_cons, messageDiv]
  · rw [hfinal]
    simp [countRole, List.countP_append, List.countP_cons, messageDiv]
  · rw [hfinal]
    simp only [countTyping, List.countP_append, List.countP_cons, List.countP_nil]
    rw [if_neg (by simpa using hfresh),
      if_neg (by simpa using messageDiv_user_ne_typing (jsTrim st.inputValue))]
    simp only [Nat.add_zero]
    exact hclean

/-- Witness for C1: a concrete send of "ola" answered with a successful
response "oi". -/
theorem c1_witness :
    jsTrim "ola" ≠ "" ∧
    countTyping ([] : List MessageDiv) = 0 ∧
    messageDiv "assistant" (ChatOutcome.success "oi").assistantContent ≠ typingDiv ∧
    ((enviarMensagem ⟨"ola", []⟩).1.chatMessages =
        [] ++ [messageDiv "user" (jsTrim "ola"), typingDiv] ∧
      (resolveFetch (enviarMensagem ⟨"ola", []⟩).1.chatMessages []
          (ChatOutcome.success "oi").toFetch).1 =
        [] ++ [messageDiv "user" (jsTrim "ola"),
          messageDiv "assistant" (ChatOutcome.success "oi").assistantContent] ∧
      countRole "user" (resolveFetch (enviarMensagem ⟨"ola", []⟩).1.chatMessages []
          (ChatOutcome.success "oi").toFetch).1 = countRole "user" [] + 1 ∧
      countRole "assistant" (resolveFetch (enviarMensagem ⟨"ola", []⟩).1.chatMessages []
          (ChatOutcome.success "oi").toFetch).1 = countRole "assistant" [] + 1 ∧
      countTyping (resolveFetch (enviarMensagem ⟨"ola", []⟩).1.chatMessages []
          (ChatOutcome.success "oi").toFetch).1 = 0) :=
  ⟨by decide, by decide, by decide,
    c1_send_lifecycle ⟨"ola", []⟩ [] (.success "oi") (by decide) (by decide) (by decide)⟩

/-!
## Toast and tooltip claims
-/

theorem countP_eraseP_self {α : Type} (p : α → Bool) :
    ∀ l : List α, (l.eraseP p).countP p = l.countP p - 1 := by
  intro l
  induction l with
  | nil => rfl
  | cons a l' ih =>
    by_cases h : p a = true
    · rw [List.eraseP_cons_of_pos h, List.countP_cons, if_pos h]
      omega
    · simp [List.eraseP_cons_of_neg h, List.countP_cons, h]
      omega

theorem contains_addClass_other (cs : List String) (c d : String) (hne : d ≠ c) :
    (addClass cs c).contains d = cs.contains d := by
  unfold addClass
  split
  · rfl
  · rw [Bool.eq_iff_iff]
    constructor
    · intro hx
      have := List.elem_iff.mp hx
      rcases List.mem_append.mp this with hm | hm
      · exact List.elem_iff.mpr hm
      · exact absurd (by simpa using hm) hne
    · intro hx
      exact List.elem_iff.mpr (List.mem_append.mpr (Or.inl (List.elem_iff.mp hx)))

theorem contains_removeClass_other (cs : List String) (c d : String) (hne : d ≠ c) :
    (removeClass cs c).contains d = cs.contains d := by
  unfold removeClass
  rw [Bool.eq_iff_iff]
  constructor
  · intro hx
    exact List.elem_iff.mpr (List.mem_filter.mp (List.elem_iff.mp hx)).1
  · intro hx
    refine List.elem_iff.mpr (List.mem_filter.mpr ⟨List.elem_iff.mp hx, ?_⟩)
    simpa using hne

theorem isToastNode_update_show (id : Nat) (upd : List String → List String)
    (hupd : ∀ cs, (upd cs).contains "toast-notification" = cs.contains "toast-notification")
    (n : ToastNode) :
    isToastNode (if n.id = id then ⟨n.id, upd n.classes, n.innerHTML⟩ else n) =
      isToastNode n := by
  by_cases hid : n.id = id
  · rw [if_pos hid]
    show (upd n.classes).contains "toast-notification" = _
    exact hupd n.classes
  · rw [if_neg hid]

theorem toastStep_le_one (pg : ToastPage) (e : ToastEvent)
    (h : countToasts pg ≤ 1) : countToasts (toastStep pg e) ≤ 1 := by
  cases e with
  | call mensagem tipo =>
    show countToasts (mostrarNotificacao pg mensagem tipo) ≤ 1
    unfold countToasts mostrarNotificacao at *
    rw [List.countP_append, countP_eraseP_self]
    have hone : List.countP isToastNode
        [⟨pg.nextId, ["toast-notification", "toast-" ++ tipo],
          "<span>" ++ icones tipo ++ "</span> " ++ mensagem⟩] = 1 := by
      simp [List.countP_cons, isToastNode]
    rw [hone]
    omega
  | entrance id =>
    show (pg.body.map _).countP isToastNode ≤ 1
    rw [List.countP_map]
    calc List.countP (isToastNode ∘ fun n =>
          if n.id = id then ⟨n.id, addClass n.classes "show", n.innerHTML⟩ else n) pg.body
        = List.countP isToastNode pg.body := by
          apply List.countP_congr
          intro n _
          show (isToastNode ∘ _) n = true ↔ isToastNode n = true
          rw [Function.comp_apply,
            isToastNode_update_show id (fun cs => addClass cs "show")
              (fun cs => contains_addClass_other cs "show" "toast-notification" (by decide)) n]
      _ ≤ 1 := h
  | fadeOut id =>
    show (pg.body.map _).countP isToastNode ≤ 1
    rw [List.countP_map]
    calc List.countP (isToastNode ∘ fun n =>
          if n.id = id then ⟨n.id, removeClass n.classes "show", n.innerHTML⟩ else n) pg.body
        = List.countP isToastNode pg.body := by
          apply List.countP_congr
          intro n _
          show (isToastNode ∘ _) n = true ↔ isToastNode n = true
          rw [Function.comp_apply,
            isToastNode_update_show id (fun cs => removeClass cs "show")
              (fun cs => contains_removeClass_other cs "show" "toast-notification" (by decide)) n]
      _ ≤ 1 := h
  | removal id =>
    show ((pg.body.filter _).countP isToastNode) ≤ 1
    calc (pg.body.filter (fun n => n.id ≠ id)).countP isToastNode
        ≤ pg.body.countP isToastNode := (List.filter_sublist _).countP_le _
      _ ≤ 1 := h

/-- C8: starting from a page with no toast, any sequence of `mostrarNotificacao`
calls interleaved with the entrance, fade-out and removal timer callbacks
leaves at most one toast node in the page at every instant. -/
theorem c8_toast_singleton (events : List ToastEvent) :
    countToasts (runToasts events) ≤ 1 := by
  suffices hgen : ∀ (evs : List ToastEvent) (pg : ToastPage), countToasts pg ≤ 1 →
      countToasts (evs.foldl toastStep pg) ≤ 1 by
    exact hgen events ⟨[], 0⟩ (by decide)
  intro evs
  induction evs with
  | nil => intro pg h; exact h
  | cons e evs' ih =>
    intro pg h
    rw [List.foldl_cons]
    exact ih (toastStep pg e) (toastStep_le_one pg e h)

/-- C9: on a page with no tooltip node, hover-enter followed by hover-leave
leaves zero tooltip nodes, and hover-enter on an element without tooltip text
creates zero tooltip nodes. -/
theorem c9_tooltip_cleanup (body : List PageNode) (datasetTooltip : Option String)
    (h : countTooltips body = 0) :
    countTooltips (esconderTooltip (mostrarTooltip body datasetTooltip)) = 0 ∧
    countTooltips (mostrarTooltip body none) = 0 := by
  constructor
  · have hshow : countTooltips (mostrarTooltip body datasetTooltip) ≤ 1 := by
      cases datasetTooltip with
      | none =>
        rw [show mostrarTooltip body none = body from rfl]
        omega
      | some texto =>
        by_cases ht : texto = ""
        · rw [show mostrarTooltip body (some texto) =
            if texto = "" then body else body ++ [⟨"tooltip", texto⟩] from rfl, if_pos ht]
          omega
        · rw [show mostrarTooltip body (some texto) =
            if texto = "" then body else body ++ [⟨"tooltip", texto⟩] from rfl, if_neg ht]
          unfold countTooltips at *
          rw [List.countP_append]
          have h2 : List.countP (fun n => decide (n.className = "tooltip"))
              [(⟨"tooltip", texto⟩ : PageNode)] = 1 := by simp
          rw [h2]
          omega
    unfold esconderTooltip countTooltips at *
    rw [countP_eraseP_self]
    omega
  · simpa [mostrarTooltip, countTooltips] using h

/-- Witness for C9 on a concrete annotated element. -/
theorem c9_witness :
    countTooltips [⟨"card", "conteudo"⟩] = 0 ∧
    (countTooltips (esconderTooltip
        (mostrarTooltip [⟨"card", "conteudo"⟩] (some "dica"))) = 0 ∧
      countTooltips (mostrarTooltip [⟨"card", "conteudo"⟩] none) = 0) :=
  ⟨by decide, c9_tooltip_cleanup [⟨"card", "conteudo"⟩] (some "dica") (by decide)⟩
